import Mathlib

/-!
Verification of the folder-to-usb copy tool (main.py and simulate_main.py)
against its specification.

The filesystem is modelled as a rose tree of named files and directories.
File metadata records the byte size as reported by os.path.getsize
(`none` when reading the size raises, matching the try/except in
simulate_main.py) and the outcome of shutil.copy2 (`none` for success,
`some e` for a raised exception with message `e`, matching the try/except
in main.py).  Path separators are modelled as a slash; os.path.join is
modelled as slash concatenation.  Directory-listing order, which the OS
does not specify, is modelled as the order of the children list, with
files and subdirectories interleaved.  The removable-device probe
(is_pendrive / find_pendrive, an OS query outside the traversal logic) is
modelled by an `Option String` argument: `some root` when a removable
drive is mounted at `root`, `none` when no drive is attached, in which
case find_pendrive raises "No pendrive detected.".
-/

/-- Metadata of one file: its size as read by os.path.getsize (`none`
when the size read raises) and the copy outcome of shutil.copy2
(`none` for success, `some e` when copying raises with message `e`). -/
structure FileMeta where
  size : Option Nat
  copyErr : Option String
deriving Repr, DecidableEq

mutual
/-- A filesystem tree: a file with metadata, or a directory with children. -/
inductive FSTree where
  | file (name : String) (meta : FileMeta)
  | dir (name : String) (children : FSList)

/-- A directory listing: a list of filesystem trees. -/
inductive FSList where
  | nil
  | cons (head : FSTree) (tail : FSList)
end

/-- Build a directory listing from an ordinary list. -/
def FSList.ofList : List FSTree → FSList
  | [] => .nil
  | t :: ts => .cons t (FSList.ofList ts)

/-- os.path.join, with the separator modelled as a slash. -/
def pjoin (a b : String) : String := a ++ "/" ++ b

/-- os.path.basename: the part of the path after the last slash. -/
def basename (s : String) : String :=
  String.mk ((s.data.reverse.takeWhile fun c => c ≠ '/').reverse)

/-- os.path.relpath(pjoin parent child, root) given rel = relpath(parent, root):
the root itself is ".", and descending appends the child name. -/
def relChild (rel child : String) : String :=
  if rel = "." then child else pjoin rel child

/-- should_ignore from main.py: basename the path, then test exact
membership in the directory-name and file-name sets, then test whether
any configured extension is a literal suffix of the name. -/
def should_ignore (path : String) (ignore_dirs ignore_exts ignore_files : List String) : Bool :=
  let name := basename path
  if name ∈ ignore_dirs ∨ name ∈ ignore_files then
    true
  else if ignore_exts.any fun ext => ext.data.isSuffixOf name.data then
    true
  else
    false

/-- The three exclusion sets of one run. -/
structure IgnoreConfig where
  dirs : List String
  exts : List String
  files : List String

/-- The default excluded directory names of main.py. -/
def default_ignore_dirs : List String :=
  ["node_modules", "venv", ".git", "__pycache__", ".mypy_cache",
   ".pytest_cache", ".idea", ".next", "dist", "build", "out", ".cache"]

/-- The default excluded extensions of main.py. -/
def default_ignore_exts : List String :=
  [".exe", ".dll", ".pyc", ".pyo", ".log", ".tmp", ".cache"]

/-- The default excluded file names of main.py. -/
def default_ignore_files : List String :=
  ["package-lock.json", "yarn.lock", ".DS_Store", "Thumbs.db"]

/-- The default exclusion configuration of both scripts. -/
def defaultConfig : IgnoreConfig :=
  { dirs := default_ignore_dirs, exts := default_ignore_exts,
    files := default_ignore_files }

theorem string_suffix_exists {ext name : String}
    (h : ext.data.isSuffixOf name.data = true) : ∃ p : String, p ++ ext = name := by
  rw [List.isSuffixOf_iff_suffix] at h
  obtain ⟨t, ht⟩ := h
  exact ⟨String.mk t, String.ext (by simpa using ht)⟩

theorem string_suffix_of_exists {ext name : String}
    (h : ∃ p : String, p ++ ext = name) : ext.data.isSuffixOf name.data = true := by
  rw [List.isSuffixOf_iff_suffix]
  obtain ⟨p, hp⟩ := h
  exact ⟨p.data, by rw [← String.data_append, hp]⟩

/-- os.path.splitext(name)[1] for a base name (no separators): the
substring from the last dot to the end, except that a name whose every
character before that dot is itself a dot has no extension. -/
def splitext_ext (name : String) : String :=
  let r := name.data.reverse
  let pre := r.takeWhile fun c => c ≠ '.'
  if pre.length = r.length then ""
  else if (r.drop (pre.length + 1)).all fun c => c = '.' then ""
  else String.mk ((r.take (pre.length + 1)).reverse)

/-- str.lower, modelled character-wise with Char.toLower. -/
def str_lower (s : String) : String := String.mk (s.data.map Char.toLower)

/-- One accumulation event into a statistics bucket of simulate_main.py:
the source path of the file, its lower-cased extension key, and its size.
The running totals and the per-extension tables are folds of these
events. -/
structure SimEntry where
  path : String
  ext : String
  size : Nat
deriving Repr, DecidableEq

/-- The observable output of the simulation walk: the events accumulated
into the copied bucket, the events accumulated into the ignored bucket,
and the lines written to the report after the header sections. -/
structure SimOut where
  copied : List SimEntry
  ignored : List SimEntry
  lines : List String
deriving Repr, DecidableEq

def SimOut.append (a b : SimOut) : SimOut :=
  ⟨a.copied ++ b.copied, a.ignored ++ b.ignored, a.lines ++ b.lines⟩

instance : Append SimOut := ⟨SimOut.append⟩

def SimOut.empty : SimOut := ⟨[], [], []⟩

@[simp] theorem SimOut.append_copied (a b : SimOut) :
    (a ++ b).copied = a.copied ++ b.copied := rfl

@[simp] theorem SimOut.append_ignored (a b : SimOut) :
    (a ++ b).ignored = a.ignored ++ b.ignored := rfl

@[simp] theorem SimOut.append_lines (a b : SimOut) :
    (a ++ b).lines = a.lines ++ b.lines := rfl

@[simp] theorem SimOut.empty_copied : SimOut.empty.copied = [] := rfl
@[simp] theorem SimOut.empty_ignored : SimOut.empty.ignored = [] := rfl
@[simp] theorem SimOut.empty_lines : SimOut.empty.lines = [] := rfl

/-- add_dir_ignored_stats from simulate_main.py: an unpruned recursive
walk of a subtree; every file whose size can be read contributes one
accumulation event (size added to the ignored total, extension bucket
bumped); a file whose size read raises is skipped. -/
def add_dir_ignored_stats (path : String) (l : FSList) : List SimEntry :=
  match l with
  | .nil => []
  | .cons (.file n m) rest =>
      (match m.size with
       | none => []
       | some s => [⟨pjoin path n, str_lower (splitext_ext n), s⟩]) ++
        add_dir_ignored_stats path rest
  | .cons (.dir n cs) rest =>
      add_dir_ignored_stats (pjoin path n) cs ++ add_dir_ignored_stats path rest

/-- The walk loop of simulate_main.py, aggregation phase: the child
directories of the visited directory that should_ignore prunes (tested
against the directory-name set only) each get their whole subtree summed
by add_dir_ignored_stats. -/
def prunedStep (cfg : IgnoreConfig) (path : String) (l : FSList) : List SimEntry :=
  match l with
  | .nil => []
  | .cons (.file _ _) rest => prunedStep cfg path rest
  | .cons (.dir n cs) rest =>
      (if should_ignore n cfg.dirs [] [] then add_dir_ignored_stats (pjoin path n) cs
       else []) ++ prunedStep cfg path rest

/-- The walk loop of simulate_main.py, per-file phase: each file of the
visited directory whose size can be read is classified against the
extension and file-name sets; ignored files are accumulated into the
ignored bucket, kept files into the copied bucket with a report line;
a file whose size read raises is skipped. -/
def simFilesStep (cfg : IgnoreConfig) (path rel : String) (l : FSList) : SimOut :=
  match l with
  | .nil => SimOut.empty
  | .cons (.dir _ _) rest => simFilesStep cfg path rel rest
  | .cons (.file n m) rest =>
      (match m.size with
       | none => SimOut.empty
       | some s =>
          let src := pjoin path n
          let e := str_lower (splitext_ext n)
          if should_ignore n [] cfg.exts cfg.files then
            ⟨[], [⟨src, e, s⟩], []⟩
          else
            ⟨[⟨src, e, s⟩], [],
             ["Would copy: " ++ src ++ " -> " ++ pjoin (pjoin "SIMULATED_USB" rel) n]⟩) ++
        simFilesStep cfg path rel rest

/-- What one iteration of the simulate_main.py walk loop accumulates for
the visited directory: the pruned-subtree aggregation, then the per-file
classification of its own files. -/
def simLocal (cfg : IgnoreConfig) (path rel : String) (l : FSList) : SimOut :=
  (⟨[], prunedStep cfg path l, []⟩ : SimOut) ++ simFilesStep cfg path rel l

/-- The remaining iterations of the simulate_main.py walk below a visited
directory: os.walk descends, in order, into each child directory that the
pruning kept, contributing the own iteration of that directory and then
the iterations of its descendants. -/
def simRec (cfg : IgnoreConfig) (path rel : String) (l : FSList) : SimOut :=
  match l with
  | .nil => SimOut.empty
  | .cons (.file _ _) rest => simRec cfg path rel rest
  | .cons (.dir n cs) rest =>
      (if should_ignore n cfg.dirs [] [] then SimOut.empty
       else
        simLocal cfg (pjoin path n) (relChild rel n) cs ++
          simRec cfg (pjoin path n) (relChild rel n) cs) ++
        simRec cfg path rel rest

/-- Everything the simulate_main.py walk accumulates at and below one
visited directory with children l. -/
def simVisit (cfg : IgnoreConfig) (path rel : String) (l : FSList) : SimOut :=
  simLocal cfg path rel l ++ simRec cfg path rel l

/-- The whole simulate_main.py walk over the source tree: os.walk starts
at the source folder itself, whose relative path is ".". -/
def simulateRun (cfg : IgnoreConfig) (srcFolder : String) (l : FSList) : SimOut :=
  simVisit cfg srcFolder "." l

/-- Specification-side: the accumulation events of every file in a tree
whose size can be read, in tree order. -/
def readableEntries (path : String) (l : FSList) : List SimEntry :=
  match l with
  | .nil => []
  | .cons (.file n m) rest =>
      (match m.size with
       | none => []
       | some s => [⟨pjoin path n, str_lower (splitext_ext n), s⟩]) ++
        readableEntries path rest
  | .cons (.dir n cs) rest =>
      readableEntries (pjoin path n) cs ++ readableEntries path rest

/-- Specification-side: the paths of all files in a tree, readable or not. -/
def allFilePaths (path : String) (l : FSList) : List String :=
  match l with
  | .nil => []
  | .cons (.file n _) rest => pjoin path n :: allFilePaths path rest
  | .cons (.dir n cs) rest => allFilePaths (pjoin path n) cs ++ allFilePaths path rest

/-- Specification-side: the sum of the byte sizes of all files in a tree
(an unreadable size counts as zero). -/
def totalFileSize (l : FSList) : Nat :=
  match l with
  | .nil => 0
  | .cons (.file _ m) rest => m.size.getD 0 + totalFileSize rest
  | .cons (.dir _ cs) rest => totalFileSize cs + totalFileSize rest

/-- Specification-side: every file size in the tree is readable. -/
def allReadable (l : FSList) : Bool :=
  match l with
  | .nil => true
  | .cons (.file _ m) rest => m.size.isSome && allReadable rest
  | .cons (.dir _ cs) rest => allReadable cs && allReadable rest

/-- The observable output of smart_copy_to_pendrive from main.py:
the source paths of files that reached the copy/report step, the source
paths of files skipped by the per-file exclusion test, the filesystem
mutations performed on the destination, and the logging records. -/
structure CopyOut where
  processed : List String
  skipped : List String
  effects : List String
  logs : List String
deriving Repr, DecidableEq

def CopyOut.append (a b : CopyOut) : CopyOut :=
  ⟨a.processed ++ b.processed, a.skipped ++ b.skipped,
   a.effects ++ b.effects, a.logs ++ b.logs⟩

instance : Append CopyOut := ⟨CopyOut.append⟩

def CopyOut.empty : CopyOut := ⟨[], [], [], []⟩

@[simp] theorem CopyOut.append_processed (a b : CopyOut) :
    (a ++ b).processed = a.processed ++ b.processed := rfl

@[simp] theorem CopyOut.append_skipped (a b : CopyOut) :
    (a ++ b).skipped = a.skipped ++ b.skipped := rfl

@[simp] theorem CopyOut.append_effects (a b : CopyOut) :
    (a ++ b).effects = a.effects ++ b.effects := rfl

@[simp] theorem CopyOut.append_logs (a b : CopyOut) :
    (a ++ b).logs = a.logs ++ b.logs := rfl

@[simp] theorem CopyOut.empty_processed : CopyOut.empty.processed = [] := rfl
@[simp] theorem CopyOut.empty_skipped : CopyOut.empty.skipped = [] := rfl
@[simp] theorem CopyOut.empty_effects : CopyOut.empty.effects = [] := rfl
@[simp] theorem CopyOut.empty_logs : CopyOut.empty.logs = [] := rfl

/-- The per-file loop body of smart_copy_to_pendrive for the files of one
visited directory: a file matching the extension or file-name sets is
skipped; otherwise, in dry-run mode a would-copy record is logged, and in
execute mode shutil.copy2 either succeeds (a mutation and a copied
record) or raises, in which case the failure is logged and the loop
continues. -/
def copyFilesStep (cfg : IgnoreConfig) (dry : Bool) (destPath path : String)
    (l : FSList) : CopyOut :=
  match l with
  | .nil => CopyOut.empty
  | .cons (.dir _ _) rest => copyFilesStep cfg dry destPath path rest
  | .cons (.file n m) rest =>
      (let src := pjoin path n
       let dest := pjoin destPath n
       if should_ignore n [] cfg.exts cfg.files then
         (⟨[], [src], [], []⟩ : CopyOut)
       else if dry then
         ⟨[src], [], [], ["Would copy: " ++ src ++ " -> " ++ dest]⟩
       else
         match m.copyErr with
         | none =>
             ⟨[src], [], ["copy " ++ src ++ " -> " ++ dest],
              ["Copied: " ++ src ++ " -> " ++ dest]⟩
         | some e =>
             ⟨[src], [], [],
              ["Failed to copy " ++ src ++ " to " ++ dest ++ ": " ++ e]⟩) ++
        copyFilesStep cfg dry destPath path rest

/-- One iteration of the smart_copy_to_pendrive walk loop for a visited
directory with relative path rel and children l: in execute mode
os.makedirs creates the mirrored destination directory, then the files
of the directory go through the per-file loop. -/
def dirLocal (cfg : IgnoreConfig) (dry : Bool) (destFolder path rel : String)
    (l : FSList) : CopyOut :=
  (if dry then CopyOut.empty
   else (⟨[], [], ["mkdir " ++ pjoin destFolder rel], []⟩ : CopyOut)) ++
    copyFilesStep cfg dry (pjoin destFolder rel) path l

/-- The remaining iterations of the smart_copy_to_pendrive walk below a
visited directory: os.walk descends, in order, into each child directory
not pruned by should_ignore against the directory-name set. -/
def copyRec (cfg : IgnoreConfig) (dry : Bool) (destFolder path rel : String)
    (l : FSList) : CopyOut :=
  match l with
  | .nil => CopyOut.empty
  | .cons (.file _ _) rest => copyRec cfg dry destFolder path rel rest
  | .cons (.dir n cs) rest =>
      (if should_ignore n cfg.dirs [] [] then CopyOut.empty
       else
        dirLocal cfg dry destFolder (pjoin path n) (relChild rel n) cs ++
          copyRec cfg dry destFolder (pjoin path n) (relChild rel n) cs) ++
        copyRec cfg dry destFolder path rel rest

/-- The whole smart_copy_to_pendrive walk over the source tree, starting
at the source folder itself, whose relative path is ".". -/
def visitTop (cfg : IgnoreConfig) (dry : Bool) (destFolder srcFolder : String)
    (l : FSList) : CopyOut :=
  dirLocal cfg dry destFolder srcFolder "." l ++
    copyRec cfg dry destFolder srcFolder "." l

/-- smart_copy_to_pendrive from main.py.  find_pendrive runs first and
raises "No pendrive detected." when no removable drive is attached
(pendrive = none); otherwise the destination folder is the drive root
joined with the base name of the source folder, and the walk runs.
os.walk of a source folder that does not exist (src = none) yields
nothing, so the run finishes with no output.  The progress-bar counting
pass is observational only and is not modelled. -/
def smart_copy_to_pendrive (pendrive : Option String) (srcFolder : String)
    (src : Option FSList) (cfg : IgnoreConfig) (dry_run : Bool) :
    Except String CopyOut :=
  match pendrive with
  | none => Except.error "No pendrive detected."
  | some root =>
      let destFolder := pjoin root (basename srcFolder)
      match src with
      | none => Except.ok CopyOut.empty
      | some l => Except.ok (visitTop cfg dry_run destFolder srcFolder l)

/-- Specification-side: the source paths of the files the walk plans to
copy: files under pruning-surviving directories that match neither the
extension nor the file-name exclusions.  Does not depend on metadata. -/
def planFiles (cfg : IgnoreConfig) (path : String) (l : FSList) : List String :=
  match l with
  | .nil => []
  | .cons (.file n _) rest =>
      (if should_ignore n [] cfg.exts cfg.files then [] else [pjoin path n]) ++
        planFiles cfg path rest
  | .cons (.dir n cs) rest =>
      (if should_ignore n cfg.dirs [] [] then []
       else planFiles cfg (pjoin path n) cs) ++ planFiles cfg path rest

/-- Specification-side: the (source, destination, cause) triples of the
planned files whose copy raises in execute mode. -/
def planFails (cfg : IgnoreConfig) (destFolder path rel : String)
    (l : FSList) : List (String × String × String) :=
  match l with
  | .nil => []
  | .cons (.file n m) rest =>
      (if should_ignore n [] cfg.exts cfg.files then []
       else
        match m.copyErr with
        | none => []
        | some e => [(pjoin path n, pjoin (pjoin destFolder rel) n, e)]) ++
        planFails cfg destFolder path rel rest
  | .cons (.dir n cs) rest =>
      (if should_ignore n cfg.dirs [] [] then []
       else planFails cfg destFolder (pjoin path n) (relChild rel n) cs) ++
        planFails cfg destFolder path rel rest

/-- Specification-side: the would-copy report lines of a dry run, one per
planned file, with the destination mirrored under the destination folder
at the relative path of the containing directory. -/
def wouldCopyLines (cfg : IgnoreConfig) (destFolder path rel : String)
    (l : FSList) : List String :=
  match l with
  | .nil => []
  | .cons (.file n _) rest =>
      (if should_ignore n [] cfg.exts cfg.files then []
       else
        ["Would copy: " ++ pjoin path n ++ " -> " ++
          pjoin (pjoin destFolder rel) n]) ++
        wouldCopyLines cfg destFolder path rel rest
  | .cons (.dir n cs) rest =>
      (if should_ignore n cfg.dirs [] [] then []
       else wouldCopyLines cfg destFolder (pjoin path n) (relChild rel n) cs) ++
        wouldCopyLines cfg destFolder path rel rest

/-- Claim C3: should_ignore returns true exactly when the base name is an
element of the directory-name set or of the file-name set, or some element
of the extension set is a literal, case-sensitive string suffix of the
base name (not restricted to the text after the final dot). -/
theorem c3_should_ignore_iff (path : String) (dirs exts files : List String) :
    should_ignore path dirs exts files = true ↔
      basename path ∈ dirs ∨ basename path ∈ files ∨
        ∃ ext ∈ exts, ∃ p : String, p ++ ext = basename path := by
  constructor
  · intro h
    unfold should_ignore at h
    by_cases hmem : basename path ∈ dirs ∨ basename path ∈ files
    · rcases hmem with h1 | h2
      · exact Or.inl h1
      · exact Or.inr (Or.inl h2)
    · rw [if_neg hmem] at h
      by_cases hext : (exts.any fun ext => ext.data.isSuffixOf (basename path).data) = true
      · rw [List.any_eq_true] at hext
        obtain ⟨ext, hin, hsuf⟩ := hext
        exact Or.inr (Or.inr ⟨ext, hin, string_suffix_exists hsuf⟩)
      · rw [if_neg hext] at h
        exact absurd h (by simp)
  · intro h
    unfold should_ignore
    rcases h with h1 | h2 | ⟨ext, hin, hsuf⟩
    · rw [if_pos (Or.inl h1)]
    · rw [if_pos (Or.inr h2)]
    · by_cases hmem : basename path ∈ dirs ∨ basename path ∈ files
      · rw [if_pos hmem]
      · rw [if_neg hmem, if_pos]
        exact List.any_eq_true.mpr ⟨ext, hin, string_suffix_of_exists hsuf⟩

theorem fsList_size_ind {P : FSList → Prop}
    (step : ∀ l, (∀ m, sizeOf m < sizeOf l → P m) → P l) : ∀ l, P l := by
  have H : ∀ n : Nat, ∀ l : FSList, sizeOf l < n → P l := by
    intro n
    induction n with
    | zero => intro l h; omega
    | succ k ih =>
        intro l h
        exact step l fun m hm => ih m (by omega)
  intro l
  exact H (sizeOf l + 1) l (by omega)

theorem sizeOf_tail_lt (t : FSTree) (rest : FSList) :
    sizeOf rest < sizeOf (FSList.cons t rest) := by
  simp only [FSList.cons.sizeOf_spec]
  omega

theorem sizeOf_children_lt (n : String) (cs rest : FSList) :
    sizeOf cs < sizeOf (FSList.cons (FSTree.dir n cs) rest) := by
  simp only [FSList.cons.sizeOf_spec, FSTree.dir.sizeOf_spec]
  omega

/-- The unpruned aggregation walk collects exactly the readable files of
the subtree. -/
theorem add_dir_eq_readable : ∀ l : FSList, ∀ path : String,
    add_dir_ignored_stats path l = readableEntries path l := by
  refine fsList_size_ind ?_
  intro l IH path
  cases l with
  | nil => rfl
  | cons h rest =>
    cases h with
    | file n m =>
        simp only [add_dir_ignored_stats, readableEntries]
        rw [IH rest (sizeOf_tail_lt _ _) path]
    | dir n cs =>
        simp only [add_dir_ignored_stats, readableEntries]
        rw [IH cs (sizeOf_children_lt _ _ _) (pjoin path n),
          IH rest (sizeOf_tail_lt _ _) path]

/-- The buckets of the pruning simulation walk partition the readable
files: together, copied and ignored hold exactly the readable files of
the tree, as a multiset. -/
theorem simVisit_partition (cfg : IgnoreConfig) : ∀ l : FSList, ∀ path rel : String,
    (((simVisit cfg path rel l).copied ++ (simVisit cfg path rel l).ignored :
        List SimEntry) : Multiset SimEntry) =
      ((readableEntries path l : List SimEntry) : Multiset SimEntry) := by
  refine fsList_size_ind ?_
  intro l IH path rel
  cases l with
  | nil => simp [simVisit, simLocal, simRec, simFilesStep, prunedStep, readableEntries]
  | cons h rest =>
    cases h with
    | file n m =>
        have hrest := IH rest (sizeOf_tail_lt _ _) path rel
        simp only [simVisit, simLocal, simRec, simFilesStep, prunedStep,
          readableEntries, SimOut.append_copied, SimOut.append_ignored,
          List.append_assoc, List.nil_append, ← Multiset.coe_add] at hrest
        cases hm : m.size with
        | none =>
            simp only [simVisit, simLocal, simRec, simFilesStep, prunedStep,
              readableEntries, hm, SimOut.append_copied, SimOut.append_ignored,
              SimOut.empty_copied, SimOut.empty_ignored, List.append_assoc,
              List.nil_append, ← Multiset.coe_add, Multiset.coe_nil, add_zero]
            try rw [← hrest]
            try abel
        | some s =>
            cases hig : should_ignore n [] cfg.exts cfg.files with
            | true =>
                simp only [simVisit, simLocal, simRec, simFilesStep, prunedStep,
                  readableEntries, hm, hig, eq_self_iff_true, if_true,
                  SimOut.append_copied, SimOut.append_ignored, SimOut.empty_copied,
                  SimOut.empty_ignored, List.append_assoc, List.nil_append,
                  ← Multiset.coe_add, Multiset.coe_nil, add_zero]
                try rw [← hrest]
                try abel
            | false =>
                simp only [simVisit, simLocal, simRec, simFilesStep, prunedStep,
                  readableEntries, hm, hig, Bool.false_eq_true, if_false,
                  SimOut.append_copied, SimOut.append_ignored, SimOut.empty_copied,
                  SimOut.empty_ignored, List.append_assoc, List.nil_append,
                  ← Multiset.coe_add, Multiset.coe_nil, add_zero]
                try rw [← hrest]
                try abel
    | dir n cs =>
        have hrest := IH rest (sizeOf_tail_lt _ _) path rel
        simp only [simVisit, simLocal, SimOut.append_copied, SimOut.append_ignored,
          List.append_assoc, List.nil_append, ← Multiset.coe_add] at hrest
        cases hp : should_ignore n cfg.dirs [] [] with
        | true =>
            simp only [simVisit, simLocal, simRec, simFilesStep, prunedStep,
              readableEntries, hp, eq_self_iff_true, if_true, SimOut.append_copied,
              SimOut.append_ignored, SimOut.empty_copied, SimOut.empty_ignored,
              List.append_assoc, List.nil_append, ← Multiset.coe_add,
              Multiset.coe_nil, add_zero]
            try rw [add_dir_eq_readable cs (pjoin path n), ← hrest]
            try abel
        | false =>
            have hcs := IH cs (sizeOf_children_lt _ _ _) (pjoin path n) (relChild rel n)
            simp only [simVisit, simLocal, SimOut.append_copied, SimOut.append_ignored,
              SimOut.empty_copied, SimOut.empty_ignored, List.append_assoc,
              List.nil_append, ← Multiset.coe_add, Multiset.coe_nil, add_zero] at hcs
            simp only [simVisit, simLocal, simRec, simFilesStep, prunedStep,
              readableEntries, hp, Bool.false_eq_true, if_false, SimOut.append_copied,
              SimOut.append_ignored, SimOut.empty_copied, SimOut.empty_ignored,
              List.append_assoc, List.nil_append, ← Multiset.coe_add,
              Multiset.coe_nil, add_zero]
            try rw [← hcs, ← hrest]
            try abel

/-- Claim C1 as amended: in one simulation run, the files whose size can
be read are classified into exactly one of the two buckets — copied or
ignored — each counted once: a file inside a pruned directory is counted
once by the whole-subtree aggregation, a file in a non-pruned directory
once by the per-file walk, and together the two buckets are a permutation
of the readable files of the source tree.  (Files whose size read raises
are omitted from both buckets; see the counterexample.) -/
theorem c1_partition_readable (cfg : IgnoreConfig) (srcFolder : String) (l : FSList) :
    ((simulateRun cfg srcFolder l).copied ++ (simulateRun cfg srcFolder l).ignored).Perm
      (readableEntries srcFolder l) :=
  Multiset.coe_eq_coe.mp (simVisit_partition cfg l srcFolder ".")

/-- Claim C1, counterexample to the claim as stated: a source tree with
one file whose size cannot be read.  The tree has exactly one file, yet
one run of the simulation classifies it into neither bucket — the file is
left out, so it is not the case that every file in the source tree lands
in exactly one of the two buckets. -/
theorem c1_counterexample :
    allFilePaths "/src"
        (FSList.cons (FSTree.file "a.txt" ⟨none, none⟩) FSList.nil) = ["/src/a.txt"] ∧
    (simulateRun defaultConfig "/src"
        (FSList.cons (FSTree.file "a.txt" ⟨none, none⟩) FSList.nil)).copied = [] ∧
    (simulateRun defaultConfig "/src"
        (FSList.cons (FSTree.file "a.txt" ⟨none, none⟩) FSList.nil)).ignored = [] :=
  ⟨rfl, rfl, rfl⟩

/-- The aggregation walk adds up exactly the byte sizes of the files of
the subtree, each once, when every size is readable. -/
theorem add_dir_total : ∀ l : FSList, ∀ path : String, allReadable l = true →
    ((add_dir_ignored_stats path l).map SimEntry.size).sum = totalFileSize l := by
  refine fsList_size_ind ?_
  intro l IH path hl
  cases l with
  | nil => rfl
  | cons h rest =>
    cases h with
    | file n m =>
        simp only [allReadable, Bool.and_eq_true] at hl
        obtain ⟨hs, hrest⟩ := hl
        cases hm : m.size with
        | none => rw [hm] at hs; simp at hs
        | some s =>
            simp only [add_dir_ignored_stats, totalFileSize, hm, List.map_append,
              List.sum_append, List.map_cons, List.map_nil, List.sum_cons,
              List.sum_nil, Option.getD_some]
            rw [IH rest (sizeOf_tail_lt _ _) path hrest]
            omega
    | dir n cs =>
        simp only [allReadable, Bool.and_eq_true] at hl
        obtain ⟨hcs, hrest⟩ := hl
        simp only [add_dir_ignored_stats, totalFileSize, List.map_append,
          List.sum_append]
        rw [IH cs (sizeOf_children_lt _ _ _) (pjoin path n) hcs,
          IH rest (sizeOf_tail_lt _ _) path hrest]

/-- Claim C2: for a directory pruned by the tree walker, the walk-loop
aggregation hands the whole subtree to add_dir_ignored_stats, and the
ignored-size total accumulated for it equals the sum of the byte sizes of
all files anywhere under that directory — every nesting depth, including
names that themselves match exclusion rules, each contributing exactly
once (stated for subtrees whose sizes are all readable; an unreadable
size is skipped by the aggregation). -/
theorem c2_pruned_dir_total (cfg : IgnoreConfig) (path n : String) (cs rest : FSList)
    (hp : should_ignore n cfg.dirs [] [] = true) (hr : allReadable cs = true) :
    prunedStep cfg path (FSList.cons (FSTree.dir n cs) rest) =
      add_dir_ignored_stats (pjoin path n) cs ++ prunedStep cfg path rest ∧
    ((add_dir_ignored_stats (pjoin path n) cs).map SimEntry.size).sum =
      totalFileSize cs := by
  constructor
  · simp [prunedStep, hp]
  · exact add_dir_total cs (pjoin path n) hr

/-- Witness for claim C2 at a concrete pruned directory (node_modules)
containing a nested subtree with a further excluded directory name and an
excluded extension inside. -/
theorem c2_pruned_dir_total_witness :
    should_ignore "node_modules" defaultConfig.dirs [] [] = true ∧
    allReadable (FSList.cons (FSTree.file "x.js" ⟨some 1000, none⟩)
      (FSList.cons (FSTree.dir ".git"
        (FSList.cons (FSTree.file "y.dll" ⟨some 7, none⟩) FSList.nil)) FSList.nil)) = true ∧
    ((add_dir_ignored_stats (pjoin "/src" "node_modules")
      (FSList.cons (FSTree.file "x.js" ⟨some 1000, none⟩)
        (FSList.cons (FSTree.dir ".git"
          (FSList.cons (FSTree.file "y.dll" ⟨some 7, none⟩) FSList.nil)) FSList.nil))).map
            SimEntry.size).sum = 1007 := by
  refine ⟨by decide, by decide, ?_⟩
  have h := (c2_pruned_dir_total defaultConfig "/src" "node_modules"
    (FSList.cons (FSTree.file "x.js" ⟨some 1000, none⟩)
      (FSList.cons (FSTree.dir ".git"
        (FSList.cons (FSTree.file "y.dll" ⟨some 7, none⟩) FSList.nil)) FSList.nil))
    FSList.nil (by decide) (by decide)).2
  rw [h]
  decide

/-- The files that reach the copy/report step of the smart-copy walk are
exactly the planned files: every file kept by the pruning and by the
per-file exclusion test is attempted, regardless of mode and regardless
of which copies fail. -/
theorem copy_processed_plan (cfg : IgnoreConfig) : ∀ l : FSList,
    ∀ dry : Bool, ∀ destF path rel dp : String,
    (((copyFilesStep cfg dry dp path l).processed ++
        (copyRec cfg dry destF path rel l).processed : List String) : Multiset String) =
      ((planFiles cfg path l : List String) : Multiset String) := by
  refine fsList_size_ind ?_
  intro l IH dry destF path rel dp
  cases l with
  | nil => simp [copyFilesStep, copyRec, planFiles]
  | cons h rest =>
    cases h with
    | file n m =>
        have hrest := IH rest (sizeOf_tail_lt _ _) dry destF path rel dp
        simp only [copyFilesStep, copyRec, planFiles, CopyOut.append_processed,
          List.append_assoc, List.nil_append, ← Multiset.coe_add] at hrest
        cases hig : should_ignore n [] cfg.exts cfg.files with
        | true =>
            simp only [copyFilesStep, copyRec, planFiles, hig, eq_self_iff_true,
              if_true, CopyOut.append_processed, CopyOut.empty_processed,
              List.append_assoc, List.nil_append, ← Multiset.coe_add,
              Multiset.coe_nil, add_zero]
            try rw [← hrest]
            try abel
        | false =>
            cases dry with
            | true =>
                simp only [copyFilesStep, copyRec, planFiles, hig, Bool.false_eq_true,
                  if_false, eq_self_iff_true, if_true, CopyOut.append_processed,
                  CopyOut.empty_processed, List.append_assoc, List.nil_append,
                  ← Multiset.coe_add, Multiset.coe_nil, add_zero]
                try rw [← hrest]
                try abel
            | false =>
                cases hme : m.copyErr with
                | none =>
                    simp only [copyFilesStep, copyRec, planFiles, hig, hme,
                      Bool.false_eq_true, if_false, CopyOut.append_processed,
                      CopyOut.empty_processed, List.append_assoc, List.nil_append,
                      ← Multiset.coe_add, Multiset.coe_nil, add_zero]
                    try rw [← hrest]
                    try abel
                | some e =>
                    simp only [copyFilesStep, copyRec, planFiles, hig, hme,
                      Bool.false_eq_true, if_false, CopyOut.append_processed,
                      CopyOut.empty_processed, List.append_assoc, List.nil_append,
                      ← Multiset.coe_add, Multiset.coe_nil, add_zero]
                    try rw [← hrest]
                    try abel
    | dir n cs =>
        have hrest := IH rest (sizeOf_tail_lt _ _) dry destF path rel dp
        simp only [copyFilesStep, copyRec, planFiles, CopyOut.append_processed,
          List.append_assoc, List.nil_append, ← Multiset.coe_add] at hrest
        cases hp : should_ignore n cfg.dirs [] [] with
        | true =>
            simp only [copyFilesStep, copyRec, planFiles, hp, eq_self_iff_true,
              if_true, CopyOut.append_processed, CopyOut.empty_processed,
              List.append_assoc, List.nil_append, ← Multiset.coe_add,
              Multiset.coe_nil, add_zero]
            try rw [← hrest]
            try abel
        | false =>
            have hcs := IH cs (sizeOf_children_lt _ _ _) dry destF (pjoin path n)
              (relChild rel n) (pjoin destF (relChild rel n))
            simp only [CopyOut.append_processed, List.append_assoc, List.nil_append,
              ← Multiset.coe_add] at hcs
            simp only [copyFilesStep, copyRec, planFiles, dirLocal, hp,
              Bool.false_eq_true, if_false, apply_ite CopyOut.processed,
              CopyOut.append_processed, CopyOut.empty_processed, ite_self,
              List.append_assoc, List.nil_append, ← Multiset.coe_add,
              Multiset.coe_nil, add_zero]
            try rw [← hcs, ← hrest]
            try abel

@[simp] theorem SimOut.sim_empty_append (a : SimOut) : SimOut.empty ++ a = a := rfl

@[simp] theorem CopyOut.copy_empty_append (a : CopyOut) : CopyOut.empty ++ a = a := rfl

/-- A dry run performs no filesystem mutation: the effects ledger of the
walk is empty in dry-run mode. -/
theorem copy_dry_no_effects (cfg : IgnoreConfig) : ∀ l : FSList,
    ∀ destF path rel dp : String,
    (copyFilesStep cfg true dp path l).effects = [] ∧
    (copyRec cfg true destF path rel l).effects = [] := by
  refine fsList_size_ind ?_
  intro l IH destF path rel dp
  cases l with
  | nil => exact ⟨rfl, rfl⟩
  | cons h rest =>
    cases h with
    | file n m =>
        obtain ⟨h1, h2⟩ := IH rest (sizeOf_tail_lt _ _) destF path rel dp
        cases hig : should_ignore n [] cfg.exts cfg.files with
        | true => simp [copyFilesStep, copyRec, hig, h1, h2]
        | false => simp [copyFilesStep, copyRec, hig, h1, h2]
    | dir n cs =>
        obtain ⟨h1, h2⟩ := IH rest (sizeOf_tail_lt _ _) destF path rel dp
        obtain ⟨h3, h4⟩ := IH cs (sizeOf_children_lt _ _ _) destF (pjoin path n)
          (relChild rel n) (pjoin destF (relChild rel n))
        cases hp : should_ignore n cfg.dirs [] [] with
        | true => simp [copyFilesStep, copyRec, hp, h1, h2]
        | false => simp [copyFilesStep, copyRec, dirLocal, hp, h1, h2, h3, h4]

/-- The classification decisions of the walk do not depend on the mode:
dry run and execute process and skip exactly the same files, in the same
order. -/
theorem copy_mode_classification (cfg : IgnoreConfig) : ∀ l : FSList,
    ∀ destF path rel dp : String,
    (copyFilesStep cfg true dp path l).processed =
      (copyFilesStep cfg false dp path l).processed ∧
    (copyFilesStep cfg true dp path l).skipped =
      (copyFilesStep cfg false dp path l).skipped ∧
    (copyRec cfg true destF path rel l).processed =
      (copyRec cfg false destF path rel l).processed ∧
    (copyRec cfg true destF path rel l).skipped =
      (copyRec cfg false destF path rel l).skipped := by
  refine fsList_size_ind ?_
  intro l IH destF path rel dp
  cases l with
  | nil => exact ⟨rfl, rfl, rfl, rfl⟩
  | cons h rest =>
    cases h with
    | file n m =>
        obtain ⟨h1, h2, h3, h4⟩ := IH rest (sizeOf_tail_lt _ _) destF path rel dp
        cases hig : should_ignore n [] cfg.exts cfg.files with
        | true => simp [copyFilesStep, copyRec, hig, h1, h2, h3, h4]
        | false =>
            cases hme : m.copyErr with
            | none => simp [copyFilesStep, copyRec, hig, hme, h1, h2, h3, h4]
            | some e => simp [copyFilesStep, copyRec, hig, hme, h1, h2, h3, h4]
    | dir n cs =>
        obtain ⟨h1, h2, h3, h4⟩ := IH rest (sizeOf_tail_lt _ _) destF path rel dp
        obtain ⟨h5, h6, h7, h8⟩ := IH cs (sizeOf_children_lt _ _ _) destF (pjoin path n)
          (relChild rel n) (pjoin destF (relChild rel n))
        cases hp : should_ignore n cfg.dirs [] [] with
        | true => simp [copyFilesStep, copyRec, hp, h1, h2, h3, h4]
        | false =>
            simp [copyFilesStep, copyRec, dirLocal, hp, h1, h2, h3, h4, h5, h6, h7, h8,
              apply_ite CopyOut.processed, apply_ite CopyOut.skipped]

/-- The walk output of a run, with the top-level directory iteration made
explicit: processed files are the per-file loop of the root plus the
recursive iterations. -/
theorem visitTop_processed (cfg : IgnoreConfig) (dry : Bool) (destF srcF : String)
    (l : FSList) :
    (visitTop cfg dry destF srcF l).processed =
      (copyFilesStep cfg dry (pjoin destF ".") srcF l).processed ++
        (copyRec cfg dry destF srcF "." l).processed := by
  simp [visitTop, dirLocal, apply_ite CopyOut.processed]

/-- Every planned file is attempted: the processed files of the whole
walk are a permutation of the planned files. -/
theorem visitTop_processed_perm (cfg : IgnoreConfig) (dry : Bool) (destF srcF : String)
    (l : FSList) :
    (visitTop cfg dry destF srcF l).processed.Perm (planFiles cfg srcF l) := by
  have h := copy_processed_plan cfg l dry destF srcF "." (pjoin destF ".")
  rw [visitTop_processed]
  exact Multiset.coe_eq_coe.mp h

/-- Claim C9: even with dry_run set, smart_copy_to_pendrive resolves the
removable destination before doing anything else, so a dry-run invocation
with no removable drive attached raises the fatal "No pendrive detected."
error and produces no simulation output at all (the run returns no walk
output whatsoever). -/
theorem c9_no_pendrive_dry_run_fatal (srcFolder : String) (src : Option FSList)
    (cfg : IgnoreConfig) :
    smart_copy_to_pendrive none srcFolder src cfg true =
      Except.error "No pendrive detected." := rfl

/-- Claim C4, counterexample to the claim as stated: with a removable
drive attached but a source root that does not exist, the run does not
abort — os.walk of a missing folder yields nothing, so the function
returns normally having attempted nothing, rather than signalling an
"aborted before start" outcome. -/
theorem c4_counterexample :
    smart_copy_to_pendrive (some "/usb") "/src" none defaultConfig false =
      Except.ok CopyOut.empty ∧
    ∀ e : String, smart_copy_to_pendrive (some "/usb") "/src" none defaultConfig false ≠
      Except.error e :=
  ⟨rfl, fun _ h => Except.noConfusion h⟩

/-- Claim C4 as amended: every invocation of the copy executor has
exactly two terminal outcomes.  It aborts before start, with the fatal
"No pendrive detected." error, exactly when no removable destination is
found; otherwise it completes, attempting every planned file (individual
failures only logged) — and when the source root does not exist the walk
yields nothing, so the run completes vacuously with no file operation,
rather than aborting. -/
theorem c4_outcomes (srcFolder : String) (src : Option FSList) (cfg : IgnoreConfig)
    (dry : Bool) :
    smart_copy_to_pendrive none srcFolder src cfg dry =
        Except.error "No pendrive detected." ∧
    ∀ root : String, ∃ out : CopyOut,
      smart_copy_to_pendrive (some root) srcFolder src cfg dry = Except.ok out ∧
      out.processed.Perm
        (match src with
         | none => []
         | some l => planFiles cfg srcFolder l) := by
  refine ⟨rfl, fun root => ?_⟩
  cases src with
  | none => exact ⟨CopyOut.empty, rfl, List.Perm.refl []⟩
  | some l =>
      exact ⟨visitTop cfg dry (pjoin root (basename srcFolder)) srcFolder l, rfl,
        visitTop_processed_perm cfg dry (pjoin root (basename srcFolder)) srcFolder l⟩

/-- Claim C7: a dry run performs no filesystem mutation under the
destination — it creates no files or directories anywhere — and
classifies every file (processed versus skipped) exactly as the same run
in execute mode does. -/
theorem c7_dry_run_pure (cfg : IgnoreConfig) (destF srcFolder : String) (l : FSList) :
    (visitTop cfg true destF srcFolder l).effects = [] ∧
    (visitTop cfg true destF srcFolder l).processed =
      (visitTop cfg false destF srcFolder l).processed ∧
    (visitTop cfg true destF srcFolder l).skipped =
      (visitTop cfg false destF srcFolder l).skipped := by
  obtain ⟨h1, h2⟩ := copy_dry_no_effects cfg l destF srcFolder "." (pjoin destF ".")
  obtain ⟨h3, h4, h5, h6⟩ := copy_mode_classification cfg l destF srcFolder "."
    (pjoin destF ".")
  refine ⟨?_, ?_, ?_⟩
  · simp [visitTop, dirLocal, h1, h2]
  · simp [visitTop, dirLocal, h3, h5, apply_ite CopyOut.processed]
  · simp [visitTop, dirLocal, h4, h6, apply_ite CopyOut.skipped]

/-- Every planned file whose copy raises in execute mode has its failure
record in the log of the walk. -/
theorem planFails_logged (cfg : IgnoreConfig) : ∀ l : FSList,
    ∀ destF path rel : String, ∀ x : String × String × String,
    x ∈ planFails cfg destF path rel l →
      ("Failed to copy " ++ x.1 ++ " to " ++ x.2.1 ++ ": " ++ x.2.2) ∈
        (copyFilesStep cfg false (pjoin destF rel) path l).logs ++
          (copyRec cfg false destF path rel l).logs := by
  refine fsList_size_ind ?_
  intro l IH destF path rel x hx
  cases l with
  | nil => simp [planFails] at hx
  | cons h rest =>
    cases h with
    | file n m =>
        have IHrest := IH rest (sizeOf_tail_lt _ _) destF path rel x
        cases hig : should_ignore n [] cfg.exts cfg.files with
        | true =>
            simp only [planFails, hig, eq_self_iff_true, if_true,
              List.nil_append] at hx
            have := IHrest hx
            simp only [copyFilesStep, copyRec, hig, eq_self_iff_true, if_true,
              CopyOut.append_logs, List.append_assoc, List.nil_append,
              List.mem_append] at this ⊢
            tauto
        | false =>
            cases hme : m.copyErr with
            | none =>
                simp only [planFails, hig, hme, Bool.false_eq_true, if_false,
                  List.nil_append] at hx
                have := IHrest hx
                simp only [copyFilesStep, copyRec, hig, hme, Bool.false_eq_true,
                  if_false, CopyOut.append_logs, List.append_assoc, List.nil_append,
                  List.mem_append, List.mem_cons, List.singleton_append] at this ⊢
                tauto
            | some e =>
                simp only [planFails, hig, hme, Bool.false_eq_true, if_false,
                  List.singleton_append, List.mem_cons] at hx
                simp only [copyFilesStep, copyRec, hig, hme, Bool.false_eq_true,
                  if_false, CopyOut.append_logs, List.append_assoc,
                  List.singleton_append, List.nil_append, List.mem_append,
                  List.mem_cons]
                cases hx with
                | inl hxx => subst hxx; left; left; rfl
                | inr hxx =>
                    have := IHrest hxx
                    simp only [copyFilesStep, copyRec, hig, hme, CopyOut.append_logs,
                      List.append_assoc, List.nil_append, List.mem_append] at this
                    tauto
    | dir n cs =>
        have IHrest := IH rest (sizeOf_tail_lt _ _) destF path rel x
        cases hp : should_ignore n cfg.dirs [] [] with
        | true =>
            simp only [planFails, hp, eq_self_iff_true, if_true,
              List.nil_append] at hx
            have := IHrest hx
            simp only [copyFilesStep, copyRec, hp, eq_self_iff_true, if_true,
              CopyOut.append_logs, CopyOut.empty_logs, List.append_assoc,
              List.nil_append, List.mem_append] at this ⊢
            tauto
        | false =>
            simp only [planFails, hp, Bool.false_eq_true, if_false,
              List.mem_append] at hx
            simp only [copyFilesStep, copyRec, dirLocal, hp, Bool.false_eq_true,
              if_false, CopyOut.append_logs, CopyOut.empty_logs, List.append_assoc,
              List.nil_append, List.mem_append]
            cases hx with
            | inl hxc =>
                have := IH cs (sizeOf_children_lt _ _ _) destF (pjoin path n)
                  (relChild rel n) x hxc
                simp only [List.mem_append] at this
                tauto
            | inr hxr =>
                have := IHrest hxr
                simp only [copyFilesStep, copyRec, hp, CopyOut.append_logs,
                  List.append_assoc, List.nil_append, List.mem_append] at this
                tauto

/-- The log ledger of the whole walk, with the top-level directory
iteration made explicit. -/
theorem visitTop_logs (cfg : IgnoreConfig) (dry : Bool) (destF srcF : String)
    (l : FSList) :
    (visitTop cfg dry destF srcF l).logs =
      (copyFilesStep cfg dry (pjoin destF ".") srcF l).logs ++
        (copyRec cfg dry destF srcF "." l).logs := by
  simp [visitTop, dirLocal, apply_ite CopyOut.logs]

/-- Claim C6: in execute mode, every file whose copy raises is caught
and logged — the log carries the source path, destination path and
cause — and execution continues: the batch still attempts every planned
file, so a single copy failure never aborts the remainder. -/
theorem c6_copy_failure_logged_and_continues (cfg : IgnoreConfig)
    (destF srcF : String) (l : FSList) :
    (visitTop cfg false destF srcF l).processed.Perm (planFiles cfg srcF l) ∧
    ∀ s d e : String, (s, d, e) ∈ planFails cfg destF srcF "." l →
      ("Failed to copy " ++ s ++ " to " ++ d ++ ": " ++ e) ∈
        (visitTop cfg false destF srcF l).logs := by
  refine ⟨visitTop_processed_perm cfg false destF srcF l, fun s d e hx => ?_⟩
  rw [visitTop_logs]
  exact planFails_logged cfg l destF srcF "." (s, d, e) hx

/-- Witness for claim C6: a run over a tree with one failing copy logs
the failure with source, destination and cause, and still attempts every
planned file. -/
theorem c6_witness :
    ("/src/c.py", "/usb/src/./c.py", "boom") ∈
      planFails defaultConfig "/usb/src" "/src" "."
        (FSList.cons (FSTree.file "c.py" ⟨some 3, some "boom"⟩)
          (FSList.cons (FSTree.file "a.txt" ⟨some 10, none⟩) FSList.nil)) ∧
    ("Failed to copy " ++ "/src/c.py" ++ " to " ++ "/usb/src/./c.py" ++ ": " ++ "boom") ∈
      (visitTop defaultConfig false "/usb/src" "/src"
        (FSList.cons (FSTree.file "c.py" ⟨some 3, some "boom"⟩)
          (FSList.cons (FSTree.file "a.txt" ⟨some 10, none⟩) FSList.nil))).logs :=
  ⟨by decide,
    (c6_copy_failure_logged_and_continues defaultConfig "/usb/src" "/src"
      (FSList.cons (FSTree.file "c.py" ⟨some 3, some "boom"⟩)
        (FSList.cons (FSTree.file "a.txt" ⟨some 10, none⟩) FSList.nil))).2
      "/src/c.py" "/usb/src/./c.py" "boom" (by decide)⟩

/-- Claim C5, counterexample to the claim as stated: a simulation run
over a tree whose only file has an unreadable size produces no record of
any kind — no bucket entry and no report line — although the size read
raised.  The error is swallowed with no log record, contrary to the
claim that every recoverable error produces one. -/
theorem c5_counterexample :
    allFilePaths "/data"
        (FSList.cons (FSTree.file "b.bin" ⟨none, none⟩) FSList.nil) = ["/data/b.bin"] ∧
    simulateRun defaultConfig "/data"
        (FSList.cons (FSTree.file "b.bin" ⟨none, none⟩) FSList.nil) =
      ⟨[], [], []⟩ :=
  ⟨rfl, rfl⟩

/-- Claim C5 as amended: a file whose size read raises during simulation
is skipped silently — the run behaves exactly as if the file were absent,
producing no record — and the run continues; a per-file copy failure in
execute mode does produce a log record with source, destination and
cause; and no error other than destination-not-found halts a run (a run
with a destination always returns a result). -/
theorem c5_error_handling (cfg : IgnoreConfig) (destF srcF path rel n : String)
    (ce : Option String) (rest l : FSList) (src : Option FSList) (dry : Bool) :
    simVisit cfg path rel (FSList.cons (FSTree.file n ⟨none, ce⟩) rest) =
      simVisit cfg path rel rest ∧
    (∀ s d e : String, (s, d, e) ∈ planFails cfg destF srcF "." l →
      ("Failed to copy " ++ s ++ " to " ++ d ++ ": " ++ e) ∈
        (visitTop cfg false destF srcF l).logs) ∧
    ∀ root : String, ∃ out : CopyOut,
      smart_copy_to_pendrive (some root) srcF src cfg dry = Except.ok out := by
  refine ⟨?_, fun s d e hx => ?_, fun root => ?_⟩
  · simp [simVisit, simLocal, simRec, simFilesStep, prunedStep]
  · rw [visitTop_logs]
    exact planFails_logged cfg l destF srcF "." (s, d, e) hx
  · cases src with
    | none => exact ⟨CopyOut.empty, rfl⟩
    | some t =>
        exact ⟨visitTop cfg dry (pjoin root (basename srcF)) srcF t, rfl⟩

/-- Witness for claim C5 as amended, at a concrete tree: the simulation
output with the unreadable file equals the output without it, and a
concrete copy failure is logged. -/
theorem c5_error_handling_witness :
    simVisit defaultConfig "/data" "."
        (FSList.cons (FSTree.file "b.bin" ⟨none, none⟩)
          (FSList.cons (FSTree.file "a.txt" ⟨some 10, none⟩) FSList.nil)) =
      simVisit defaultConfig "/data" "."
        (FSList.cons (FSTree.file "a.txt" ⟨some 10, none⟩) FSList.nil) ∧
    ("Failed to copy " ++ "/data/b.bin" ++ " to " ++ "/usb/data/./b.bin" ++ ": " ++ "eio") ∈
      (visitTop defaultConfig false "/usb/data" "/data"
        (FSList.cons (FSTree.file "b.bin" ⟨some 4, some "eio"⟩) FSList.nil)).logs :=
  ⟨(c5_error_handling defaultConfig "/usb/data" "/data" "/data" "." "b.bin" none
      (FSList.cons (FSTree.file "a.txt" ⟨some 10, none⟩) FSList.nil)
      (FSList.cons (FSTree.file "b.bin" ⟨some 4, some "eio"⟩) FSList.nil) none false).1,
    (c5_error_handling defaultConfig "/usb/data" "/data" "/data" "." "b.bin" none
      (FSList.cons (FSTree.file "a.txt" ⟨some 10, none⟩) FSList.nil)
      (FSList.cons (FSTree.file "b.bin" ⟨some 4, some "eio"⟩) FSList.nil) none false).2.1
      "/data/b.bin" "/usb/data/./b.bin" "eio" (by decide)⟩

/-- Claim C8, counterexample to the claim as stated: a dry run over a
source root with one top-level file.  The emitted record capitalises
"Would copy:" and, for files of the source root itself, the destination
contains the literal "." relative-path segment produced by joining with
os.path.relpath of the root, so the exact line claimed — lower-case
"would copy:" with destination <destination-root>/<basename>/<relative
path> — is not emitted. -/
theorem c8_counterexample :
    (visitTop defaultConfig true (pjoin "/usb" (basename "/home/me/proj")) "/home/me/proj"
        (FSList.cons (FSTree.file "a.txt" ⟨some 10, none⟩) FSList.nil)).logs =
      ["Would copy: /home/me/proj/a.txt -> /usb/proj/./a.txt"] ∧
    "would copy: /home/me/proj/a.txt -> /usb/proj/a.txt" ∉
      (visitTop defaultConfig true (pjoin "/usb" (basename "/home/me/proj")) "/home/me/proj"
        (FSList.cons (FSTree.file "a.txt" ⟨some 10, none⟩) FSList.nil)).logs :=
  ⟨rfl, by decide⟩

/-- In dry-run mode the log records of the walk are exactly the
would-copy lines of the planned files. -/
theorem copy_dry_logs (cfg : IgnoreConfig) : ∀ l : FSList, ∀ destF path rel : String,
    (((copyFilesStep cfg true (pjoin destF rel) path l).logs ++
        (copyRec cfg true destF path rel l).logs : List String) : Multiset String) =
      ((wouldCopyLines cfg destF path rel l : List String) : Multiset String) := by
  refine fsList_size_ind ?_
  intro l IH destF path rel
  cases l with
  | nil => simp [copyFilesStep, copyRec, wouldCopyLines]
  | cons h rest =>
    cases h with
    | file n m =>
        have hrest := IH rest (sizeOf_tail_lt _ _) destF path rel
        simp only [CopyOut.append_logs, List.append_assoc, List.nil_append,
          ← Multiset.coe_add] at hrest
        cases hig : should_ignore n [] cfg.exts cfg.files with
        | true =>
            simp only [copyFilesStep, copyRec, wouldCopyLines, hig, eq_self_iff_true,
              if_true, CopyOut.append_logs, CopyOut.empty_logs, List.append_assoc,
              List.nil_append, ← Multiset.coe_add, Multiset.coe_nil, add_zero]
            try rw [← hrest]
            try abel
        | false =>
            simp only [copyFilesStep, copyRec, wouldCopyLines, hig, Bool.false_eq_true,
              if_false, eq_self_iff_true, if_true, CopyOut.append_logs,
              CopyOut.empty_logs, List.append_assoc, List.nil_append,
              ← Multiset.coe_add, Multiset.coe_nil, add_zero]
            try rw [← hrest]
            try abel
    | dir n cs =>
        have hrest := IH rest (sizeOf_tail_lt _ _) destF path rel
        simp only [CopyOut.append_logs, List.append_assoc, List.nil_append,
          ← Multiset.coe_add] at hrest
        cases hp : should_ignore n cfg.dirs [] [] with
        | true =>
            simp only [copyFilesStep, copyRec, wouldCopyLines, hp, eq_self_iff_true,
              if_true, CopyOut.append_logs, CopyOut.empty_logs, List.append_assoc,
              List.nil_append, ← Multiset.coe_add, Multiset.coe_nil, add_zero]
            try rw [← hrest]
            try abel
        | false =>
            have hcs := IH cs (sizeOf_children_lt _ _ _) destF (pjoin path n)
              (relChild rel n)
            simp only [CopyOut.append_logs, List.append_assoc, List.nil_append,
              ← Multiset.coe_add] at hcs
            simp only [copyFilesStep, copyRec, wouldCopyLines, dirLocal, hp,
              Bool.false_eq_true, if_false, eq_self_iff_true, if_true,
              CopyOut.append_logs, CopyOut.empty_logs, List.append_assoc,
              List.nil_append, ← Multiset.coe_add, Multiset.coe_nil, add_zero]
            try rw [← hcs, ← hrest]
            try abel

/-- Claim C8 as amended: in a dry run with a removable drive at root, the
emitted records are exactly the lines "Would copy: <source> ->
<destination>" (capital W), one per file that would be copied, where the
destination is the destination root joined with the base name of the
source root, then the relative path of the containing directory (which is
"." for the source root itself), then the file name. -/
theorem c8_would_copy_lines (root srcFolder : String) (cfg : IgnoreConfig)
    (l : FSList) :
    ∃ out : CopyOut,
      smart_copy_to_pendrive (some root) srcFolder (some l) cfg true = Except.ok out ∧
      out.logs.Perm
        (wouldCopyLines cfg (pjoin root (basename srcFolder)) srcFolder "." l) := by
  refine ⟨visitTop cfg true (pjoin root (basename srcFolder)) srcFolder l, rfl, ?_⟩
  rw [visitTop_logs]
  exact Multiset.coe_eq_coe.mp
    (copy_dry_logs cfg l (pjoin root (basename srcFolder)) srcFolder ".")

/-- Claim C10: directory pruning consults only the directory-name set and
per-file exclusion consults only the extension and file-name sets.  A
child directory whose name matches an extension or file-name rule but is
not in the directory-name set is still descended into by the walker, and
a file whose name is in the directory-name set but matches no extension
or file-name rule still reaches the copy step. -/
theorem c10_rule_separation (cfg : IgnoreConfig) (dry : Bool)
    (destF path rel dp n : String) (m : FileMeta) (cs rest : FSList) :
    (should_ignore n [] cfg.exts cfg.files = true → basename n ∉ cfg.dirs →
      copyRec cfg dry destF path rel (FSList.cons (FSTree.dir n cs) rest) =
        (dirLocal cfg dry destF (pjoin path n) (relChild rel n) cs ++
          copyRec cfg dry destF (pjoin path n) (relChild rel n) cs) ++
          copyRec cfg dry destF path rel rest) ∧
    (basename n ∈ cfg.dirs → should_ignore n [] cfg.exts cfg.files = false →
      (copyFilesStep cfg dry dp path (FSList.cons (FSTree.file n m) rest)).processed =
        pjoin path n :: (copyFilesStep cfg dry dp path rest).processed) := by
  constructor
  · intro hext hdir
    have hfalse : should_ignore n cfg.dirs [] [] = false := by
      simp [should_ignore, hdir]
    simp [copyRec, hfalse]
  · intro hmem hig
    cases dry with
    | true => simp [copyFilesStep, hig]
    | false =>
        cases hme : m.copyErr with
        | none => simp [copyFilesStep, hig, hme]
        | some e => simp [copyFilesStep, hig, hme]

/-- Witness for claim C10 at concrete inputs: a directory named "x.log"
(matching the excluded extension ".log" but not an excluded directory
name) is still descended into, and a file named "sub" (an excluded
directory name, matching neither extensions nor file names) is still
processed. -/
theorem c10_witness :
    copyRec (⟨["sub"], [".log"], ["f.txt"]⟩ : IgnoreConfig) false "/usb" "/src" "."
        (FSList.cons (FSTree.dir "x.log"
          (FSList.cons (FSTree.file "z.txt" ⟨some 1, none⟩) FSList.nil)) FSList.nil) =
      (dirLocal (⟨["sub"], [".log"], ["f.txt"]⟩ : IgnoreConfig) false "/usb"
          (pjoin "/src" "x.log") (relChild "." "x.log")
          (FSList.cons (FSTree.file "z.txt" ⟨some 1, none⟩) FSList.nil) ++
        copyRec (⟨["sub"], [".log"], ["f.txt"]⟩ : IgnoreConfig) false "/usb"
          (pjoin "/src" "x.log") (relChild "." "x.log")
          (FSList.cons (FSTree.file "z.txt" ⟨some 1, none⟩) FSList.nil)) ++
        copyRec (⟨["sub"], [".log"], ["f.txt"]⟩ : IgnoreConfig) false "/usb" "/src" "."
          FSList.nil ∧
    (copyFilesStep (⟨["sub"], [".log"], ["f.txt"]⟩ : IgnoreConfig) false "/usb/src" "/src"
        (FSList.cons (FSTree.file "sub" ⟨some 2, none⟩) FSList.nil)).processed =
      pjoin "/src" "sub" ::
        (copyFilesStep (⟨["sub"], [".log"], ["f.txt"]⟩ : IgnoreConfig) false "/usb/src"
          "/src" FSList.nil).processed :=
  ⟨(c10_rule_separation (⟨["sub"], [".log"], ["f.txt"]⟩ : IgnoreConfig) false "/usb"
      "/src" "." "/usb/src" "x.log" ⟨some 2, none⟩
      (FSList.cons (FSTree.file "z.txt" ⟨some 1, none⟩) FSList.nil) FSList.nil).1
      (by decide) (by decide),
    (c10_rule_separation (⟨["sub"], [".log"], ["f.txt"]⟩ : IgnoreConfig) false "/usb"
      "/src" "." "/usb/src" "sub" ⟨some 2, none⟩
      (FSList.cons (FSTree.file "z.txt" ⟨some 1, none⟩) FSList.nil) FSList.nil).2
      (by decide) (by decide)⟩
